import Mathlib

/-!
Shallow embedding of the buyback-strategy simulator
(modules/gbm.py, modules/benchmarks.py, modules/strategies.py, modules/metrics.py).

Prices, budgets and basis-point quantities are embedded as rationals (Python
floats, with exact arithmetic standing in for IEEE doubles); the stochastic
path generator, whose update uses `exp`, is embedded over the reals.
Matrices of shape (num_simulations, num_days) are embedded as curried
functions `ℕ → ℕ → ℚ`; per-day vectors as `ℕ → ℚ` or `List ℚ`.
-/

namespace Buyback

/-- The duration/budget configuration shared by the strategy functions
(`total_usd`, `target_duration`, `min_duration`, `max_duration` arguments of
`execute_strategy_2` in modules/strategies.py). -/
structure StratConfig where
  total_usd : ℚ
  target_duration : ℕ
  min_duration : ℕ
  max_duration : ℕ

/-! ### modules/benchmarks.py -/

/-- Embedding of `calculate_arithmetic_mean_benchmark(prices, discount_bps)`:
`benchmark[day] = np.mean(prices[:, :day+1])` for each day, then multiplied by
`1 - discount_bps/10000` if `discount_bps > 0`. -/
def calculate_arithmetic_mean_benchmark (numSims numDays : ℕ)
    (prices : ℕ → ℕ → ℚ) (discount_bps : ℚ) : List ℚ :=
  (List.range numDays).map (fun day =>
    let m : ℚ :=
      (∑ s ∈ Finset.range numSims, ∑ t ∈ Finset.range (day + 1), prices s t) /
        (numSims * (day + 1))
    if 0 < discount_bps then m * (1 - discount_bps / 10000) else m)

/-! ### modules/strategies.py -/

/-- Embedding of `benchmark[day] if day < len(benchmark) else benchmark[-1]`
(line inside the day loop of `execute_strategy_2`). -/
def benchAt (bench : List ℚ) (day : ℕ) : ℚ :=
  if day < bench.length then bench.getD day 0 else bench.getLastD 0

/-- The trade-amount computation of one day of `execute_strategy_2`
(the body between the stop check and the `min(daily_trade, remaining_usd)`
clamp), as a function of the loop state.  `first_day_value` is
`initial_daily_usd = total_usd / target_duration`, hoisted before the loop
in the source. -/
def tradeAmount (cfg : StratConfig) (bench : List ℚ) (day : ℕ)
    (remaining_usd : ℚ) (current_price : ℚ) : ℚ :=
  if day = cfg.max_duration - 1 then remaining_usd
  else
    let first_day_value := cfg.total_usd / cfg.target_duration
    let current_benchmark := benchAt bench day
    if day < min 10 cfg.min_duration then first_day_value
    else if current_price < current_benchmark then
      if cfg.min_duration ≤ day then min remaining_usd (first_day_value * 5)
      else remaining_usd / ((max 1 (cfg.min_duration - day) : ℕ) : ℚ)
    else
      let base_daily_trade := remaining_usd / ((max 1 (cfg.max_duration - day) : ℕ) : ℚ)
      if remaining_usd < 5 * first_day_value ∧ 5 < cfg.max_duration - day then
        min base_daily_trade (1 / 10 * first_day_value)
      else base_daily_trade

/-- One day of the `execute_strategy_2` loop: `none` when the
`remaining_usd <= 0.01` stop check fires (the `break`), otherwise the traded
amount `min(daily_trade, remaining_usd)`. -/
def execDay (cfg : StratConfig) (bench : List ℚ) (day : ℕ)
    (remaining_usd : ℚ) (current_price : ℚ) : Option ℚ :=
  if remaining_usd ≤ 1 / 100 then none
  else some (min (tradeAmount cfg bench day remaining_usd current_price) remaining_usd)

/-- The per-simulation day loop of `execute_strategy_2`, processing `fuel`
further days starting at `day` with `remaining_usd = r`.  Returns the list of
traded usd amounts (one per processed day), the final remaining budget, and
`some d` when the stop check broke the loop at day `d`. -/
def strat2Go (cfg : StratConfig) (bench : List ℚ) (price : ℕ → ℚ) :
    ℕ → ℕ → ℚ → List ℚ × ℚ × Option ℕ
  | 0, _, r => ([], r, none)
  | fuel + 1, day, r =>
    match execDay cfg bench day r (price day) with
    | none => ([], r, some day)
    | some t =>
      let rest := strat2Go cfg bench price fuel (day + 1) (r - t)
      (t :: rest.1, rest.2.1, rest.2.2)

/-- One simulation row of an execution record: usd spent per day, shares
acquired per day, and the actual end day. -/
structure ExecutionRow where
  usd : ℕ → ℚ
  shares : ℕ → ℚ
  end_day : ℕ

/-- The post-loop end-day bookkeeping of `execute_strategy_2`:
`actual_end_days[sim]` holds the break day when the stop check fired (its
`np.zeros` initialisation making a day-0 break indistinguishable from no
break), and the final `if actual_end_days[sim] == 0` sets
`min(max_duration, num_days)`. -/
def strat2EndDay (brkOpt : Option ℕ) (maxDuration numDays : ℕ) : ℕ :=
  match brkOpt with
  | some d => if d = 0 then min maxDuration numDays else d
  | none => min maxDuration numDays

/-- One simulation row of `execute_strategy_2`: the loop runs over
`range(min(num_days, max_duration))` starting from `remaining_usd = total_usd`.
Days the loop never wrote keep their `np.zeros` initialisation;
`shares_acquired[sim, day] = usd_executed[sim, day] / prices[sim, day]` on
written days and `0 = 0 / p` elsewhere. -/
def execute_strategy_2_row (cfg : StratConfig) (numDays : ℕ) (bench : List ℚ)
    (price : ℕ → ℚ) : ExecutionRow :=
  let res := strat2Go cfg bench price (min numDays cfg.max_duration) 0 cfg.total_usd
  { usd := fun d => res.1.getD d 0
    shares := fun d => res.1.getD d 0 / price d
    end_day := strat2EndDay res.2.2 cfg.max_duration numDays }

/-- The `benchmark=None` default of `execute_strategy_2`:
`calculate_arithmetic_mean_benchmark(prices, discount_bps=0.0)`. -/
def resolveBench (numSims numDays : ℕ) (prices : ℕ → ℕ → ℚ) :
    Option (List ℚ) → List ℚ
  | some b => b
  | none => calculate_arithmetic_mean_benchmark numSims numDays prices 0

/-- Embedding of `execute_strategy_2(prices, ...)`: resolves the `benchmark=None` default
and runs every simulation row independently. -/
def execute_strategy_2 (cfg : StratConfig) (numSims numDays : ℕ)
    (benchOpt : Option (List ℚ)) (prices : ℕ → ℕ → ℚ) : ℕ → ExecutionRow :=
  fun sim =>
    execute_strategy_2_row cfg numDays (resolveBench numSims numDays prices benchOpt)
      (prices sim)

/-- Embedding of `execute_strategy_3`: same as strategy 2 but with the discounted
decision benchmark. -/
def execute_strategy_3 (cfg : StratConfig) (numSims numDays : ℕ)
    (benchmark_discount_bps : ℚ) (prices : ℕ → ℕ → ℚ) : ℕ → ExecutionRow :=
  execute_strategy_2 cfg numSims numDays
    (some (calculate_arithmetic_mean_benchmark numSims numDays prices benchmark_discount_bps))
    prices

/-- One simulation row of `execute_strategy_1`: `daily_usd = total_usd /
target_duration` is spent on each of the first `min(target_duration,
num_days)` days and `actual_end_day = min(target_duration, num_days)`. -/
def execute_strategy_1_row (numDays : ℕ) (total_usd : ℚ) (target_duration : ℕ)
    (price : ℕ → ℚ) : ExecutionRow :=
  let daily_usd := total_usd / target_duration
  { usd := fun d => if d < min target_duration numDays then daily_usd else 0
    shares := fun d => (if d < min target_duration numDays then daily_usd else 0) / price d
    end_day := min target_duration numDays }

/-- Embedding of `execute_strategy_1(prices, total_usd, target_duration)` over the batch. -/
def execute_strategy_1 (numDays : ℕ) (total_usd : ℚ) (target_duration : ℕ)
    (prices : ℕ → ℕ → ℚ) : ℕ → ExecutionRow :=
  fun sim => execute_strategy_1_row numDays total_usd target_duration (prices sim)

/-- The Adaptive strategy's per-day decision tree as the specification words
it: stop if `remaining_budget ≤ 0.01`; else, forced finish on day
`max_duration − 1` trades the whole remaining budget; else the ramp phase
(day index below `min(10, min_duration)`) trades `total_budget /
target_duration`; else, price below the decision-benchmark value accelerates
— `min(remaining_budget, 5 × first_day_value)` at or past `min_duration`,
`remaining_budget / max(1, min_duration − day)` before it — and price at or
above the benchmark decelerates to `remaining_budget / max(1, max_duration −
day)`, capped at `min(base, 0.1 × first_day_value)` exactly when
`remaining_budget < 5 × first_day_value` and `max_duration − day > 5`; the
final trade is clamped to `remaining_budget`. -/
def adaptiveTradeSpec (cfg : StratConfig) (bench : List ℚ) (day : ℕ)
    (remaining_budget : ℚ) (price : ℚ) : Option ℚ :=
  if remaining_budget ≤ 1 / 100 then none
  else
    let first_day_value := cfg.total_usd / cfg.target_duration
    let raw : ℚ :=
      if day = cfg.max_duration - 1 then remaining_budget
      else if day < min 10 cfg.min_duration then first_day_value
      else if price < benchAt bench day then
        if cfg.min_duration ≤ day then min remaining_budget (5 * first_day_value)
        else remaining_budget / ((max 1 (cfg.min_duration - day) : ℕ) : ℚ)
      else
        let base := remaining_budget / ((max 1 (cfg.max_duration - day) : ℕ) : ℚ)
        if remaining_budget < 5 * first_day_value ∧ 5 < cfg.max_duration - day then
          min base (1 / 10 * first_day_value)
        else base
    some (min raw remaining_budget)

/-- The remaining budget of a strategy-2 simulation row before day `day + k`,
when the loop reached day `day` with remaining budget `r` (after the stop
check fires the budget no longer changes). -/
def strat2Rem (cfg : StratConfig) (bench : List ℚ) (price : ℕ → ℚ) :
    ℕ → ℚ → ℕ → ℚ
  | _, r, 0 => r
  | day, r, k + 1 =>
    match execDay cfg bench day r (price day) with
    | none => strat2Rem cfg bench price (day + 1) r k
    | some t => strat2Rem cfg bench price (day + 1) (r - t) k

/-- The remaining budget of a strategy-2 simulation row just before `day` is
processed (the value of `remaining_usd` for that loop iteration). -/
def remainingBefore (cfg : StratConfig) (bench : List ℚ) (price : ℕ → ℚ)
    (day : ℕ) : ℚ :=
  strat2Rem cfg bench price 0 cfg.total_usd day

/-! ### modules/gbm.py -/

/-- Modelled from the spec: numpy's global pseudo-random state (the code calls
`np.random.seed` / `np.random.standard_normal`, whose implementation is not
part of this repository).  §4.1: "If a seed is supplied, the entire draw
sequence must be fully reproducible across repeated calls with identical
parameters". -/
abbrev RngState := ℕ

/-- Modelled from the spec: `np.random.seed(random_seed)` resets the global
state to a value determined by the seed alone. -/
def npRandomSeed (seed : ℤ) : RngState := seed.natAbs

/-- Modelled from the spec: entry (i, j) of the matrix returned by
`np.random.standard_normal((n, m))` is a fixed deterministic function of the
state at the time of the draw. -/
def standardNormalEntry (st : RngState) (i j : ℕ) : ℝ :=
  ((st + 3 * i + 7 * j : ℕ) : ℝ)

/-- Modelled from the spec: drawing an (n, m) matrix advances the global state
past the n·m consumed variates. -/
def advanceState (st : RngState) (draws : ℕ) : RngState := st + draws

/-- The GBM recurrence of `simulate_gbm_paths`: `prices[:, 0] = S0` and
`prices[:, t] = prices[:, t-1] * exp((mu - 0.5*sigma**2)*dt +
sigma*sqrt(dt)*Z[:, t-1])`. -/
noncomputable def gbmPath (S0 mu sigma dt : ℝ) (Z : ℕ → ℝ) : ℕ → ℝ
  | 0 => S0
  | t + 1 =>
    gbmPath S0 mu sigma dt Z t *
      Real.exp ((mu - 0.5 * sigma ^ 2) * dt + sigma * Real.sqrt dt * Z t)

/-- Embedding of `simulate_gbm_paths(S0, num_days, drift_pct, volatility_pct,
num_simulations, random_seed)`: seeds the global state if a seed is given,
converts the percentages, fixes `dt = 1/252`, draws the
`(num_simulations, num_days - 1)` shock matrix and applies the GBM
recurrence row by row.  The ambient RNG state is threaded explicitly. -/
noncomputable def simulate_gbm_paths (S0 : ℝ) (num_days : ℕ)
    (drift_pct volatility_pct : ℝ) (num_simulations : ℕ)
    (random_seed : Option ℤ) (st : RngState) : (ℕ → ℕ → ℝ) × RngState :=
  let st0 :=
    match random_seed with
    | some s => npRandomSeed s
    | none => st
  let mu := drift_pct / 100
  let sigma := volatility_pct / 100
  let dt : ℝ := 1 / 252
  (fun sim => gbmPath S0 mu sigma dt (fun t => standardNormalEntry st0 sim t),
    advanceState st0 (num_simulations * (num_days - 1)))

/-! ### modules/metrics.py -/

/-- Embedding of `calculate_vwap` (with `actual_end_days` supplied, as `calculate_all_metrics`
always does): sums usd and shares over `[:end_day]` and falls back to 0 when
`total_shares > 0` fails. -/
def calculate_vwap (usd shares : ℕ → ℚ) (end_day : ℕ) : ℚ :=
  let total_usd := ∑ d ∈ Finset.range end_day, usd d
  let total_shares := ∑ d ∈ Finset.range end_day, shares d
  if 0 < total_shares then total_usd / total_shares else 0

/-- Embedding of `calculate_benchmark_price` for one simulation (with `actual_end_days`
supplied): `np.mean(prices[sim, :end_day])`, discounted iff
`discount_bps > 0`. -/
def calculate_benchmark_price (price : ℕ → ℚ) (end_day : ℕ)
    (discount_bps : ℚ) : ℚ :=
  let m := (∑ d ∈ Finset.range end_day, price d) / (end_day : ℚ)
  if 0 < discount_bps then m * (1 - discount_bps / 10000) else m

/-- Embedding of `calculate_execution_performance_bps`: `-((vwap - benchmark) / benchmark *
10000)`.  numpy division of a float array by zero yields a defined IEEE value
with a warning rather than raising; it is embedded by the total rational
division (division by zero gives the junk value 0). -/
def calculate_execution_performance_bps (vwap benchmark_price : ℚ) : ℚ :=
  -((vwap - benchmark_price) / benchmark_price * 10000)

/-- The benchmark discount `calculate_all_metrics` passes for a strategy:
the configured `benchmark_discount_bps` for `'strategy_3'`, `0.0` for the
others. -/
def evalDiscountFor (strategy_name : String) (benchmark_discount_bps : ℚ) : ℚ :=
  if strategy_name = "strategy_3" then benchmark_discount_bps else 0

/-- The per-simulation part of `calculate_all_metrics` for one strategy:
VWAP, evaluation-benchmark price (discounted only for `'strategy_3'`) and
performance in bps. -/
def strategyMetricsRow (strategy_name : String) (row : ExecutionRow)
    (price : ℕ → ℚ) (benchmark_discount_bps : ℚ) : ℚ × ℚ × ℚ :=
  let vwap := calculate_vwap row.usd row.shares row.end_day
  let bench := calculate_benchmark_price price row.end_day
    (evalDiscountFor strategy_name benchmark_discount_bps)
  (vwap, bench, calculate_execution_performance_bps vwap bench)

/-- Embedding of `np.min` over a nonempty vector (0 on the empty vector, which numpy
rejects). -/
def npMin (xs : List ℚ) : ℚ :=
  match xs with
  | [] => 0
  | h :: t => t.foldl min h

/-- Embedding of `np.max` over a nonempty vector (0 on the empty vector). -/
def npMax (xs : List ℚ) : ℚ :=
  match xs with
  | [] => 0
  | h :: t => t.foldl max h

/-- Embedding of `np.percentile(xs, q)` with the default linear interpolation: on the
sorted data of length n, position `h = q/100 · (n−1)`, value
`s[⌊h⌋] + (h − ⌊h⌋) · (s[⌊h⌋+1] − s[⌊h⌋])`. -/
def npPercentile (xs : List ℚ) (q : ℚ) : ℚ :=
  let s := List.insertionSort (· ≤ ·) xs
  let h : ℚ := q / 100 * ((s.length : ℚ) - 1)
  let i : ℕ := (⌊h⌋).toNat
  let lo := s.getD i 0
  let hi := s.getD (i + 1) lo
  lo + (h - (⌊h⌋ : ℚ)) * (hi - lo)

/-- Embedding of `np.median(xs)`: middle element of the sorted data for odd length,
mean of the two middle elements for even length. -/
def npMedian (xs : List ℚ) : ℚ :=
  let s := List.insertionSort (· ≤ ·) xs
  let n := s.length
  if n % 2 = 1 then s.getD (n / 2) 0
  else (s.getD (n / 2 - 1) 0 + s.getD (n / 2) 0) / 2

/-- The dictionary returned by `calculate_performance_statistics`. -/
structure PerformanceStats where
  mean : ℚ
  std : ℝ
  std_error : ℝ
  median : ℚ
  p25 : ℚ
  p75 : ℚ
  min : ℚ
  max : ℚ

/-- The population variance behind `np.std`: the mean of the squared
deviations from the mean. -/
def popVariance (xs : List ℚ) : ℚ :=
  (xs.map (fun x => (x - xs.sum / xs.length) ^ 2)).sum / xs.length

/-- Embedding of `calculate_performance_statistics(performance_bps)`: mean, population
standard deviation (`np.std`), standard error `std / √N`, `np.median`,
25th/75th `np.percentile`, `np.min`, `np.max`. -/
noncomputable def calculate_performance_statistics (performance_bps : List ℚ) :
    PerformanceStats :=
  { mean := performance_bps.sum / performance_bps.length
    std := Real.sqrt ((popVariance performance_bps : ℚ) : ℝ)
    std_error := Real.sqrt ((popVariance performance_bps : ℚ) : ℝ) /
      Real.sqrt (performance_bps.length : ℝ)
    median := npMedian performance_bps
    p25 := npPercentile performance_bps 25
    p75 := npPercentile performance_bps 75
    min := npMin performance_bps
    max := npMax performance_bps }

/-! ### Lemmas about the strategy-2 day loop -/

theorem execDay_none_iff (cfg : StratConfig) (bench : List ℚ) (day : ℕ)
    (r p : ℚ) : execDay cfg bench day r p = none ↔ r ≤ 1 / 100 := by
  unfold execDay
  split <;> simp_all

theorem execDay_some (cfg : StratConfig) (bench : List ℚ) (day : ℕ)
    (r p t : ℚ) (h : execDay cfg bench day r p = some t) :
    ¬ r ≤ 1 / 100 ∧ t = min (tradeAmount cfg bench day r p) r := by
  unfold execDay at h
  split at h
  · exact absurd h (by simp)
  · exact ⟨by assumption, (Option.some.injEq _ _ ▸ h).symm⟩

theorem strat2Go_sum (cfg : StratConfig) (bench : List ℚ) (price : ℕ → ℚ) :
    ∀ (fuel day : ℕ) (r : ℚ),
      (strat2Go cfg bench price fuel day r).1.sum
        = r - (strat2Go cfg bench price fuel day r).2.1 := by
  intro fuel
  induction fuel with
  | zero => intro day r; simp [strat2Go]
  | succ f ih =>
    intro day r
    simp only [strat2Go]
    cases h : execDay cfg bench day r (price day) with
    | none => simp
    | some t =>
      simp only [List.sum_cons, ih (day + 1) (r - t)]
      ring

theorem strat2Go_length_none (cfg : StratConfig) (bench : List ℚ)
    (price : ℕ → ℚ) :
    ∀ (fuel day : ℕ) (r : ℚ),
      (strat2Go cfg bench price fuel day r).2.2 = none →
      (strat2Go cfg bench price fuel day r).1.length = fuel := by
  intro fuel
  induction fuel with
  | zero => intro day r _; simp [strat2Go]
  | succ f ih =>
    intro day r hbrk
    simp only [strat2Go] at hbrk ⊢
    cases h : execDay cfg bench day r (price day) with
    | none => rw [h] at hbrk; simp at hbrk
    | some t =>
      rw [h] at hbrk
      simp only [List.length_cons]
      rw [ih (day + 1) (r - t) hbrk]

theorem strat2Go_nonneg (cfg : StratConfig) (bench : List ℚ) (price : ℕ → ℚ) :
    ∀ (fuel day : ℕ) (r : ℚ), 0 ≤ r →
      0 ≤ (strat2Go cfg bench price fuel day r).2.1 := by
  intro fuel
  induction fuel with
  | zero => intro day r hr; simpa [strat2Go] using hr
  | succ f ih =>
    intro day r hr
    simp only [strat2Go]
    cases h : execDay cfg bench day r (price day) with
    | none => simpa using hr
    | some t =>
      have ht := (execDay_some cfg bench day r (price day) t h).2
      have : 0 ≤ r - t := by
        have : t ≤ r := ht ▸ min_le_right _ _
        linarith
      exact ih (day + 1) (r - t) this

theorem strat2Go_break (cfg : StratConfig) (bench : List ℚ) (price : ℕ → ℚ) :
    ∀ (fuel day : ℕ) (r : ℚ) (b : ℕ),
      (strat2Go cfg bench price fuel day r).2.2 = some b →
      day ≤ b ∧ b < day + fuel
        ∧ (strat2Go cfg bench price fuel day r).1.length = b - day
        ∧ (strat2Go cfg bench price fuel day r).2.1 ≤ 1 / 100 := by
  intro fuel
  induction fuel with
  | zero => intro day r b hbrk; simp [strat2Go] at hbrk
  | succ f ih =>
    intro day r b hbrk
    simp only [strat2Go] at hbrk ⊢
    cases h : execDay cfg bench day r (price day) with
    | none =>
      rw [h] at hbrk
      simp only [Option.some.injEq] at hbrk
      subst hbrk
      refine ⟨le_refl _, by omega, by simp [h], ?_⟩
      simpa [h] using (execDay_none_iff cfg bench day r (price day)).1 h
    | some t =>
      rw [h] at hbrk
      simp only at hbrk
      obtain ⟨h1, h2, h3, h4⟩ := ih (day + 1) (r - t) b hbrk
      exact ⟨by omega, by omega, by simp [h, h3]; omega, by simpa [h] using h4⟩

theorem strat2Go_final_zero (cfg : StratConfig) (bench : List ℚ)
    (price : ℕ → ℚ) :
    ∀ (fuel day : ℕ) (r : ℚ), day + fuel = cfg.max_duration → 0 < fuel →
      (strat2Go cfg bench price fuel day r).2.2 = none →
      (strat2Go cfg bench price fuel day r).2.1 = 0 := by
  intro fuel
  induction fuel with
  | zero => intro day r _ hf; omega
  | succ f ih =>
    intro day r hsum _ hbrk
    simp only [strat2Go] at hbrk ⊢
    cases h : execDay cfg bench day r (price day) with
    | none => rw [h] at hbrk; simp at hbrk
    | some t =>
      rw [h] at hbrk
      simp only at hbrk ⊢
      have ht := (execDay_some cfg bench day r (price day) t h).2
      rcases Nat.eq_zero_or_pos f with hf0 | hfpos
      · subst hf0
        have hday : day = cfg.max_duration - 1 := by omega
        have htr : tradeAmount cfg bench day r (price day) = r := by
          unfold tradeAmount
          rw [if_pos hday]
        rw [htr, min_self] at ht
        subst ht
        simp [strat2Go]
      · exact ih (day + 1) (r - t) (by omega) hfpos hbrk

/-! ### List indexing helpers -/

theorem list_getD_sum_range (l : List ℚ) :
    ∑ d ∈ Finset.range l.length, l.getD d 0 = l.sum := by
  induction l with
  | nil => simp
  | cons h t ih =>
    rw [List.length_cons, Finset.sum_range_succ']
    simp only [List.getD_cons_succ, List.getD_cons_zero]
    rw [ih, List.sum_cons, add_comm]

theorem list_getD_of_length_le (l : List ℚ) (n : ℕ) (h : l.length ≤ n) :
    l.getD n 0 = 0 := by
  induction l generalizing n with
  | nil => simp
  | cons a t ih =>
    cases n with
    | zero => simp at h
    | succ m => simpa using ih m (by simpa using h)

/-- The budget/termination behaviour of one strategy-2 simulation row, for
any decision benchmark: the usd spent over days `0..end_day−1` sums to the
total budget up to the `0.01` stop threshold, later days are untouched, and
the end day lies in `[1, max_duration]`. -/
theorem strat2_row_spec (cfg : StratConfig) (numDays : ℕ) (bench : List ℚ)
    (price : ℕ → ℚ) (hmax1 : 1 ≤ cfg.max_duration)
    (hmaxD : cfg.max_duration ≤ numDays) (hb : 0 ≤ cfg.total_usd) :
    |(∑ d ∈ Finset.range (execute_strategy_2_row cfg numDays bench price).end_day,
        (execute_strategy_2_row cfg numDays bench price).usd d) - cfg.total_usd| ≤ 1 / 100
    ∧ (∀ d, (execute_strategy_2_row cfg numDays bench price).end_day ≤ d →
        (execute_strategy_2_row cfg numDays bench price).usd d = 0
        ∧ (execute_strategy_2_row cfg numDays bench price).shares d = 0)
    ∧ 1 ≤ (execute_strategy_2_row cfg numDays bench price).end_day
    ∧ (execute_strategy_2_row cfg numDays bench price).end_day ≤ cfg.max_duration := by
  have hlim : min numDays cfg.max_duration = cfg.max_duration := min_eq_right hmaxD
  have hlim2 : min cfg.max_duration numDays = cfg.max_duration := min_eq_left hmaxD
  have husd : ∀ d, (execute_strategy_2_row cfg numDays bench price).usd d
      = (strat2Go cfg bench price cfg.max_duration 0 cfg.total_usd).1.getD d 0 := by
    intro d
    show (strat2Go cfg bench price (min numDays cfg.max_duration) 0 cfg.total_usd).1.getD d 0 = _
    rw [hlim]
  have hshares : ∀ d, (execute_strategy_2_row cfg numDays bench price).shares d
      = (strat2Go cfg bench price cfg.max_duration 0 cfg.total_usd).1.getD d 0 / price d := by
    intro d
    show (strat2Go cfg bench price (min numDays cfg.max_duration) 0 cfg.total_usd).1.getD d 0 / price d = _
    rw [hlim]
  have hend : (execute_strategy_2_row cfg numDays bench price).end_day
      = strat2EndDay (strat2Go cfg bench price cfg.max_duration 0 cfg.total_usd).2.2
          cfg.max_duration numDays := by
    show strat2EndDay
        (strat2Go cfg bench price (min numDays cfg.max_duration) 0 cfg.total_usd).2.2
        cfg.max_duration numDays = _
    rw [hlim]
  have hsum := strat2Go_sum cfg bench price cfg.max_duration 0 cfg.total_usd
  have hr0 := strat2Go_nonneg cfg bench price cfg.max_duration 0 cfg.total_usd hb
  simp only [husd, hshares, hend]
  cases hbrk : (strat2Go cfg bench price cfg.max_duration 0 cfg.total_usd).2.2 with
  | none =>
    have hlen := strat2Go_length_none cfg bench price cfg.max_duration 0 cfg.total_usd hbrk
    have hfin := strat2Go_final_zero cfg bench price cfg.max_duration 0 cfg.total_usd
      (by omega) (by omega) hbrk
    have hS : ∑ d ∈ Finset.range cfg.max_duration,
        (strat2Go cfg bench price cfg.max_duration 0 cfg.total_usd).1.getD d 0
        = cfg.total_usd := by
      have h1 := list_getD_sum_range (strat2Go cfg bench price cfg.max_duration 0 cfg.total_usd).1
      rw [hlen] at h1
      rw [h1, hsum, hfin, sub_zero]
    rw [show strat2EndDay none cfg.max_duration numDays = cfg.max_duration from by
      simp [strat2EndDay, hlim2]]
    refine ⟨by rw [hS]; simp, ?_, hmax1, le_refl _⟩
    intro d hd
    have h0 : (strat2Go cfg bench price cfg.max_duration 0 cfg.total_usd).1.getD d 0 = 0 :=
      list_getD_of_length_le _ _ (by omega)
    exact ⟨h0, by rw [h0, zero_div]⟩
  | some b =>
    obtain ⟨h0b, hbf, hlen, hrle⟩ :=
      strat2Go_break cfg bench price cfg.max_duration 0 cfg.total_usd b hbrk
    by_cases hb0 : b = 0
    · subst hb0
      have hnil : (strat2Go cfg bench price cfg.max_duration 0 cfg.total_usd).1 = [] :=
        List.length_eq_zero.1 (by omega)
      have hrt : (strat2Go cfg bench price cfg.max_duration 0 cfg.total_usd).2.1
          = cfg.total_usd := by
        have h := hsum
        rw [hnil] at h
        simp only [List.sum_nil] at h
        linarith
      have hz : ∀ d, (strat2Go cfg bench price cfg.max_duration 0 cfg.total_usd).1.getD d 0 = 0 := by
        intro d; rw [hnil]; simp
      rw [show strat2EndDay (some 0) cfg.max_duration numDays = cfg.max_duration from by
        simp [strat2EndDay, hlim2]]
      refine ⟨?_, fun d _ => ⟨hz d, by rw [hz d, zero_div]⟩, hmax1, le_refl _⟩
      have : ∑ d ∈ Finset.range cfg.max_duration,
          (strat2Go cfg bench price cfg.max_duration 0 cfg.total_usd).1.getD d 0 = 0 := by
        exact Finset.sum_eq_zero (fun d _ => hz d)
      rw [this, zero_sub, abs_neg, abs_of_nonneg hb]
      linarith [hrle, hrt]
    · rw [show strat2EndDay (some b) cfg.max_duration numDays = b from by
        simp [strat2EndDay, hb0]]
      refine ⟨?_, ?_, by omega, by omega⟩
      · have hS : ∑ d ∈ Finset.range b,
            (strat2Go cfg bench price cfg.max_duration 0 cfg.total_usd).1.getD d 0
            = cfg.total_usd - (strat2Go cfg bench price cfg.max_duration 0 cfg.total_usd).2.1 := by
          have h1 := list_getD_sum_range (strat2Go cfg bench price cfg.max_duration 0 cfg.total_usd).1
          have hlb : (strat2Go cfg bench price cfg.max_duration 0 cfg.total_usd).1.length = b := by
            omega
          rw [hlb] at h1
          rw [h1, hsum]
        rw [hS]
        rw [sub_sub_cancel_left, abs_neg, abs_of_nonneg hr0]
        exact hrle
      · intro d hd
        have h0 : (strat2Go cfg bench price cfg.max_duration 0 cfg.total_usd).1.getD d 0 = 0 :=
          list_getD_of_length_le _ _ (by omega)
        exact ⟨h0, by rw [h0, zero_div]⟩

/-- Budget/termination behaviour of one strategy-1 simulation row when
`1 ≤ target_duration ≤ numDays`: the spend over the active days is exactly
the total budget and later days are untouched. -/
theorem strat1_row_spec (numDays : ℕ) (total_usd : ℚ) (target_duration : ℕ)
    (price : ℕ → ℚ) (h1 : 1 ≤ target_duration) (hD : target_duration ≤ numDays) :
    (∑ d ∈ Finset.range
        (execute_strategy_1_row numDays total_usd target_duration price).end_day,
      (execute_strategy_1_row numDays total_usd target_duration price).usd d) = total_usd
    ∧ ∀ d, (execute_strategy_1_row numDays total_usd target_duration price).end_day ≤ d →
        (execute_strategy_1_row numDays total_usd target_duration price).usd d = 0
        ∧ (execute_strategy_1_row numDays total_usd target_duration price).shares d = 0 := by
  have ht0 : (target_duration : ℚ) ≠ 0 := by
    have h : 0 < target_duration := by omega
    exact_mod_cast h.ne'
  have husd : ∀ d, (execute_strategy_1_row numDays total_usd target_duration price).usd d
      = if d < min target_duration numDays then total_usd / target_duration else 0 :=
    fun _ => rfl
  have hend : (execute_strategy_1_row numDays total_usd target_duration price).end_day
      = min target_duration numDays := rfl
  simp only [husd, hend, min_eq_left hD]
  constructor
  · rw [Finset.sum_congr rfl (fun d hd => if_pos (Finset.mem_range.1 hd)),
      Finset.sum_const, nsmul_eq_mul, mul_comm, Finset.card_range,
      div_mul_cancel₀ _ ht0]
  · intro d hd
    rw [if_neg (by omega)]
    exact ⟨rfl, by
      show (if d < min target_duration numDays then total_usd / target_duration else 0) / price d = 0
      rw [min_eq_left hD, if_neg (by omega), zero_div]⟩

/-- C1: proved. For every strategy (fixed, adaptive, adaptive-discounted), under
the precondition `1 ≤ min_duration ≤ target_duration ≤ max_duration ≤
numDays` (the configured budget being a nonnegative usd amount), every
simulation row's usd spend over days `0..end_day−1` sums to the configured
total budget to within an absolute tolerance of `0.01`, and usd spent and
shares acquired are zero on every day at or beyond `end_day`. -/
theorem budget_conservation_all_strategies (cfg : StratConfig)
    (numSims numDays : ℕ) (prices : ℕ → ℕ → ℚ)
    (h1 : 1 ≤ cfg.min_duration) (h2 : cfg.min_duration ≤ cfg.target_duration)
    (h3 : cfg.target_duration ≤ cfg.max_duration) (h4 : cfg.max_duration ≤ numDays)
    (hb : 0 ≤ cfg.total_usd) :
    (∀ sim,
      |(∑ d ∈ Finset.range
            (execute_strategy_1 numDays cfg.total_usd cfg.target_duration prices sim).end_day,
          (execute_strategy_1 numDays cfg.total_usd cfg.target_duration prices sim).usd d)
        - cfg.total_usd| ≤ 1 / 100
      ∧ ∀ d, (execute_strategy_1 numDays cfg.total_usd cfg.target_duration prices sim).end_day ≤ d →
          (execute_strategy_1 numDays cfg.total_usd cfg.target_duration prices sim).usd d = 0
          ∧ (execute_strategy_1 numDays cfg.total_usd cfg.target_duration prices sim).shares d = 0)
    ∧ (∀ (benchOpt : Option (List ℚ)) sim,
      |(∑ d ∈ Finset.range
            (execute_strategy_2 cfg numSims numDays benchOpt prices sim).end_day,
          (execute_strategy_2 cfg numSims numDays benchOpt prices sim).usd d)
        - cfg.total_usd| ≤ 1 / 100
      ∧ ∀ d, (execute_strategy_2 cfg numSims numDays benchOpt prices sim).end_day ≤ d →
          (execute_strategy_2 cfg numSims numDays benchOpt prices sim).usd d = 0
          ∧ (execute_strategy_2 cfg numSims numDays benchOpt prices sim).shares d = 0)
    ∧ (∀ (discount_bps : ℚ) sim,
      |(∑ d ∈ Finset.range
            (execute_strategy_3 cfg numSims numDays discount_bps prices sim).end_day,
          (execute_strategy_3 cfg numSims numDays discount_bps prices sim).usd d)
        - cfg.total_usd| ≤ 1 / 100
      ∧ ∀ d, (execute_strategy_3 cfg numSims numDays discount_bps prices sim).end_day ≤ d →
          (execute_strategy_3 cfg numSims numDays discount_bps prices sim).usd d = 0
          ∧ (execute_strategy_3 cfg numSims numDays discount_bps prices sim).shares d = 0) := by
  have hmax1 : 1 ≤ cfg.max_duration := by omega
  refine ⟨?_, ?_, ?_⟩
  · intro sim
    obtain ⟨hS, hZ⟩ := strat1_row_spec numDays cfg.total_usd cfg.target_duration
      (prices sim) (by omega) (by omega)
    refine ⟨?_, hZ⟩
    show |(∑ d ∈ Finset.range
          (execute_strategy_1_row numDays cfg.total_usd cfg.target_duration (prices sim)).end_day,
        (execute_strategy_1_row numDays cfg.total_usd cfg.target_duration (prices sim)).usd d)
      - cfg.total_usd| ≤ 1 / 100
    rw [hS]
    simp
  · intro benchOpt sim
    obtain ⟨hA, hZ, _, _⟩ := strat2_row_spec cfg numDays
      (resolveBench numSims numDays prices benchOpt) (prices sim) hmax1 h4 hb
    exact ⟨hA, hZ⟩
  · intro discount_bps sim
    obtain ⟨hA, hZ, _, _⟩ := strat2_row_spec cfg numDays
      (resolveBench numSims numDays prices
        (some (calculate_arithmetic_mean_benchmark numSims numDays prices discount_bps)))
      (prices sim) hmax1 h4 hb
    exact ⟨hA, hZ⟩

/-- Witness for C1 at `total = 100`, `target = 2`, `min = 1`, `max = 3`,
three days of constant price 100, one simulation. -/
theorem budget_conservation_all_strategies_witness :
    ((1 : ℕ) ≤ 1 ∧ (1 : ℕ) ≤ 2 ∧ (2 : ℕ) ≤ 3 ∧ (3 : ℕ) ≤ 3 ∧ (0 : ℚ) ≤ 100)
    ∧ |(∑ d ∈ Finset.range
          (execute_strategy_2 ⟨100, 2, 1, 3⟩ 1 3 none (fun _ _ => 100) 0).end_day,
        (execute_strategy_2 ⟨100, 2, 1, 3⟩ 1 3 none (fun _ _ => 100) 0).usd d)
      - 100| ≤ 1 / 100 :=
  ⟨⟨le_refl _, by norm_num, by norm_num, le_refl _, by norm_num⟩,
    ((budget_conservation_all_strategies ⟨100, 2, 1, 3⟩ 1 3 (fun _ _ => 100)
      (le_refl _) (by norm_num) (by norm_num) (le_refl _) (by norm_num)).2.1 none 0).1⟩

/-- C9: proved. For every valid input (positive total budget and
`1 ≤ min_duration ≤ target_duration ≤ max_duration ≤ numDays`), the terminal
day of every Adaptive and Adaptive-Discounted simulation row satisfies
`1 ≤ end_day ≤ max_duration`. -/
theorem adaptive_end_day_bounds (cfg : StratConfig) (numSims numDays : ℕ)
    (prices : ℕ → ℕ → ℚ)
    (h1 : 1 ≤ cfg.min_duration) (h2 : cfg.min_duration ≤ cfg.target_duration)
    (h3 : cfg.target_duration ≤ cfg.max_duration) (h4 : cfg.max_duration ≤ numDays)
    (hb : 0 < cfg.total_usd) :
    (∀ (benchOpt : Option (List ℚ)) sim,
      1 ≤ (execute_strategy_2 cfg numSims numDays benchOpt prices sim).end_day
      ∧ (execute_strategy_2 cfg numSims numDays benchOpt prices sim).end_day
          ≤ cfg.max_duration)
    ∧ (∀ (discount_bps : ℚ) sim,
      1 ≤ (execute_strategy_3 cfg numSims numDays discount_bps prices sim).end_day
      ∧ (execute_strategy_3 cfg numSims numDays discount_bps prices sim).end_day
          ≤ cfg.max_duration) := by
  have hmax1 : 1 ≤ cfg.max_duration := by omega
  constructor
  · intro benchOpt sim
    obtain ⟨_, _, hge, hle⟩ := strat2_row_spec cfg numDays
      (resolveBench numSims numDays prices benchOpt) (prices sim) hmax1 h4 hb.le
    exact ⟨hge, hle⟩
  · intro discount_bps sim
    obtain ⟨_, _, hge, hle⟩ := strat2_row_spec cfg numDays
      (resolveBench numSims numDays prices
        (some (calculate_arithmetic_mean_benchmark numSims numDays prices discount_bps)))
      (prices sim) hmax1 h4 hb.le
    exact ⟨hge, hle⟩

theorem strat2Rem_const (cfg : StratConfig) (bench : List ℚ) (price : ℕ → ℚ) :
    ∀ (k day : ℕ) (r : ℚ), r ≤ 1 / 100 → strat2Rem cfg bench price day r k = r := by
  intro k
  induction k with
  | zero => intro day r _; rfl
  | succ n ih =>
    intro day r hr
    simp only [strat2Rem]
    rw [(execDay_none_iff cfg bench day r (price day)).2 hr]
    exact ih (day + 1) r hr

/-- The usd amount the strategy-2 loop records for its `k`-th processed day is
the per-day step function applied to the remaining budget before that day. -/
theorem strat2Go_getD_eq (cfg : StratConfig) (bench : List ℚ) (price : ℕ → ℚ) :
    ∀ (k fuel day : ℕ) (r : ℚ), k < fuel →
      (strat2Go cfg bench price fuel day r).1.getD k 0
        = (execDay cfg bench (day + k) (strat2Rem cfg bench price day r k)
            (price (day + k))).getD 0 := by
  intro k
  induction k with
  | zero =>
    intro fuel day r hk
    cases fuel with
    | zero => omega
    | succ f =>
      simp only [strat2Go, Nat.add_zero]
      cases h : execDay cfg bench day r (price day) with
      | none => simp [h, strat2Rem]
      | some t => simp [h, strat2Rem]
  | succ n ih =>
    intro fuel day r hk
    cases fuel with
    | zero => omega
    | succ f =>
      simp only [strat2Go]
      cases h : execDay cfg bench day r (price day) with
      | none =>
        have hr : r ≤ 1 / 100 := (execDay_none_iff cfg bench day r (price day)).1 h
        have h2 : strat2Rem cfg bench price day r (n + 1) = r := by
          simp only [strat2Rem]
          rw [h]
          exact strat2Rem_const cfg bench price n (day + 1) r hr
        rw [h2, (execDay_none_iff cfg bench (day + (n + 1)) r (price (day + (n + 1)))).2 hr]
        simp
      | some t =>
        simp only [List.getD_cons_succ]
        have hidx : day + (n + 1) = (day + 1) + n := by omega
        have h2 : strat2Rem cfg bench price day r (n + 1)
            = strat2Rem cfg bench price (day + 1) (r - t) n := by
          simp only [strat2Rem]
          rw [h]
        rw [hidx, h2]
        exact ih f (day + 1) (r - t) (by omega)

/-- The per-day step of the strategy-2 loop coincides with the decision tree
as the specification words it. -/
theorem trade_decision_eq (cfg : StratConfig) (bench : List ℚ) (day : ℕ)
    (r p : ℚ) : execDay cfg bench day r p = adaptiveTradeSpec cfg bench day r p := by
  simp only [execDay, adaptiveTradeSpec, tradeAmount]
  rw [mul_comm (cfg.total_usd / (cfg.target_duration : ℚ)) 5]

/-- C2: proved. For every simulation row and every processed day (a day index
below `min(num_days, max_duration)`), the Adaptive strategy's recorded usd
trade equals the specified decision tree — stop below the `0.01` threshold,
forced finish on day `max_duration − 1`, ramp below `min(10, min_duration)`,
accelerate below the decision benchmark (full speed past `min_duration`,
paced to `min_duration` before it), decelerate otherwise with the
small-remainder cap, clamped to the remaining budget — evaluated at that
day's remaining budget and path price. -/
theorem adaptive_trade_decision_tree (cfg : StratConfig) (numSims numDays : ℕ)
    (benchOpt : Option (List ℚ)) (prices : ℕ → ℕ → ℚ) (sim d : ℕ)
    (hd : d < min numDays cfg.max_duration) :
    (execute_strategy_2 cfg numSims numDays benchOpt prices sim).usd d
      = (adaptiveTradeSpec cfg (resolveBench numSims numDays prices benchOpt) d
          (remainingBefore cfg (resolveBench numSims numDays prices benchOpt)
            (prices sim) d)
          (prices sim d)).getD 0 := by
  have h := strat2Go_getD_eq cfg (resolveBench numSims numDays prices benchOpt)
    (prices sim) d (min numDays cfg.max_duration) 0 cfg.total_usd hd
  rw [show (0 : ℕ) + d = d from by omega] at h
  show (strat2Go cfg (resolveBench numSims numDays prices benchOpt) (prices sim)
      (min numDays cfg.max_duration) 0 cfg.total_usd).1.getD d 0 = _
  rw [h, trade_decision_eq]
  rfl

/-- Witness for C2: day 0 of a 4-day batch at constant price 100 with
`total = 100`, `target = 2`, `min = 3`, `max = 4` (a ramp-phase day, traded
at `total/target = 50`). -/
theorem adaptive_trade_decision_tree_witness :
    0 < min 4 4
    ∧ (execute_strategy_2 ⟨100, 2, 3, 4⟩ 1 4 none (fun _ _ => 100) 0).usd 0
      = (adaptiveTradeSpec ⟨100, 2, 3, 4⟩ (resolveBench 1 4 (fun _ _ => 100) none) 0
          (remainingBefore ⟨100, 2, 3, 4⟩ (resolveBench 1 4 (fun _ _ => 100) none)
            (fun _ => 100) 0)
          100).getD 0 :=
  ⟨by norm_num,
    adaptive_trade_decision_tree ⟨100, 2, 3, 4⟩ 1 4 none (fun _ _ => 100) 0 0 (by norm_num)⟩

theorem list_range_map_getD (n : ℕ) (f : ℕ → ℚ) (d : ℕ) (hd : d < n) :
    ((List.range n).map f).getD d 0 = f d := by
  simp [List.getD_eq_getElem?_getD, List.getElem?_map, List.getElem?_range, hd]

/-- C4: proved. For every price batch of shape (N, D) with `N ≥ 1` and every
`discount_bps ≥ 0`, the decision-benchmark series has length D, its day-`d`
entry is the arithmetic mean of the `N·(d+1)` prices in rows `0..N−1` and
columns `0..d` multiplied by `1 − discount_bps/10000` when
`discount_bps > 0` and the bare mean otherwise, and the all-100 batch with a
100 bps discount gives the constant series 99. -/
theorem decision_benchmark_spec (numSims numDays : ℕ) (prices : ℕ → ℕ → ℚ)
    (discount_bps : ℚ) (hN : 1 ≤ numSims) (hbps : 0 ≤ discount_bps) :
    (calculate_arithmetic_mean_benchmark numSims numDays prices discount_bps).length
        = numDays
    ∧ (0 < discount_bps → ∀ d, d < numDays →
        (calculate_arithmetic_mean_benchmark numSims numDays prices discount_bps).getD d 0
          = ((∑ s ∈ Finset.range numSims, ∑ t ∈ Finset.range (d + 1), prices s t)
              / (numSims * (d + 1))) * (1 - discount_bps / 10000))
    ∧ (discount_bps = 0 → ∀ d, d < numDays →
        (calculate_arithmetic_mean_benchmark numSims numDays prices discount_bps).getD d 0
          = (∑ s ∈ Finset.range numSims, ∑ t ∈ Finset.range (d + 1), prices s t)
              / (numSims * (d + 1)))
    ∧ (∀ d, d < numDays →
        (calculate_arithmetic_mean_benchmark numSims numDays (fun _ _ => 100) 100).getD d 0
          = 99) := by
  have hlen : (calculate_arithmetic_mean_benchmark numSims numDays prices discount_bps).length
      = numDays := by
    simp [calculate_arithmetic_mean_benchmark]
  refine ⟨hlen, ?_, ?_, ?_⟩
  · intro hpos d hd
    rw [show calculate_arithmetic_mean_benchmark numSims numDays prices discount_bps
        = (List.range numDays).map (fun day =>
            if 0 < discount_bps then
              ((∑ s ∈ Finset.range numSims, ∑ t ∈ Finset.range (day + 1), prices s t)
                / (numSims * (day + 1))) * (1 - discount_bps / 10000)
            else
              (∑ s ∈ Finset.range numSims, ∑ t ∈ Finset.range (day + 1), prices s t)
                / (numSims * (day + 1))) from rfl]
    rw [list_range_map_getD numDays _ d hd, if_pos hpos]
  · intro hzero d hd
    rw [show calculate_arithmetic_mean_benchmark numSims numDays prices discount_bps
        = (List.range numDays).map (fun day =>
            if 0 < discount_bps then
              ((∑ s ∈ Finset.range numSims, ∑ t ∈ Finset.range (day + 1), prices s t)
                / (numSims * (day + 1))) * (1 - discount_bps / 10000)
            else
              (∑ s ∈ Finset.range numSims, ∑ t ∈ Finset.range (day + 1), prices s t)
                / (numSims * (day + 1))) from rfl]
    rw [list_range_map_getD numDays _ d hd, if_neg (by rw [hzero]; exact lt_irrefl 0)]
  · intro d hd
    rw [show calculate_arithmetic_mean_benchmark numSims numDays (fun _ _ => (100 : ℚ)) 100
        = (List.range numDays).map (fun day =>
            if (0 : ℚ) < 100 then
              ((∑ _s ∈ Finset.range numSims, ∑ _t ∈ Finset.range (day + 1), (100 : ℚ))
                / (numSims * (day + 1))) * (1 - 100 / 10000)
            else
              (∑ _s ∈ Finset.range numSims, ∑ _t ∈ Finset.range (day + 1), (100 : ℚ))
                / (numSims * (day + 1))) from rfl]
    rw [list_range_map_getD numDays _ d hd, if_pos (by norm_num)]
    rw [Finset.sum_const, Finset.sum_const, Finset.card_range, Finset.card_range]
    have hN0 : ((numSims : ℚ)) ≠ 0 := by
      have h : 0 < numSims := hN
      exact_mod_cast h.ne'
    have hd0 : ((d : ℚ) + 1) ≠ 0 := by positivity
    field_simp
    ring

/-- Witness for C4 at a 2-simulation, 3-day batch with prices
`s + t` and a 50 bps discount. -/
theorem decision_benchmark_spec_witness :
    ((1 : ℕ) ≤ 2 ∧ (0 : ℚ) ≤ 50)
    ∧ (calculate_arithmetic_mean_benchmark 2 3 (fun s t => (s : ℚ) + t) 50).length = 3 :=
  ⟨⟨by norm_num, by norm_num⟩,
    (decision_benchmark_spec 2 3 (fun s t => (s : ℚ) + t) 50 (by norm_num) (by norm_num)).1⟩

/-- C7: proved. (RNG modelled from the spec.)  For every integer seed and every
identical parameter tuple, two calls of the path generator with that seed —
whatever ambient RNG state each call sees — return identical price batches:
seeding overwrites the global state, so the output depends on the seed
alone. -/
theorem seeded_paths_deterministic (S0 : ℝ) (num_days : ℕ)
    (drift_pct volatility_pct : ℝ) (num_simulations : ℕ) (seed : ℤ)
    (st1 st2 : RngState) :
    (simulate_gbm_paths S0 num_days drift_pct volatility_pct num_simulations
        (some seed) st1).1
      = (simulate_gbm_paths S0 num_days drift_pct volatility_pct num_simulations
        (some seed) st2).1 := rfl

/-- Counterexample to C8 as stated: with a one-day batch (D = 1) but
`target_duration = 2` and total budget 100, the spend over the active days
sums to 50, outside the 0.01 tolerance of 100. -/
theorem fixed_schedule_budget_counterexample :
    (execute_strategy_1 1 100 2 (fun _ _ => 100) 0).end_day = 1
    ∧ (∑ d ∈ Finset.range (execute_strategy_1 1 100 2 (fun _ _ => 100) 0).end_day,
        (execute_strategy_1 1 100 2 (fun _ _ => 100) 0).usd d) = 50
    ∧ ¬(|(∑ d ∈ Finset.range (execute_strategy_1 1 100 2 (fun _ _ => 100) 0).end_day,
          (execute_strategy_1 1 100 2 (fun _ _ => 100) 0).usd d) - 100| ≤ 1 / 100) := by
  have hend : (execute_strategy_1 1 100 2 (fun _ _ => (100 : ℚ)) 0).end_day = 1 := rfl
  have husd : (execute_strategy_1 1 100 2 (fun _ _ => (100 : ℚ)) 0).usd 0 = 50 := by
    show (if 0 < min 2 1 then (100 : ℚ) / 2 else 0) = 50
    norm_num
  have hS : (∑ d ∈ Finset.range (execute_strategy_1 1 100 2 (fun _ _ => 100) 0).end_day,
      (execute_strategy_1 1 100 2 (fun _ _ => 100) 0).usd d) = 50 := by
    rw [hend, Finset.sum_range_one, husd]
  refine ⟨hend, hS, ?_⟩
  rw [hS]
  norm_num

/-- C8, amended: For every price batch of shape (N, D) and every
simulation row, the Fixed-Schedule strategy spends exactly
`total_budget / target_duration` on each of the first
`min(target_duration, D)` days and its terminal day equals
`min(target_duration, D)` deterministically; when moreover
`target_duration ≤ D` — as in every valid configuration — the spend over
the active days sums to the total budget, in particular to within 0.01. -/
theorem fixed_schedule_spec (numDays : ℕ) (total_usd : ℚ)
    (target_duration : ℕ) (prices : ℕ → ℕ → ℚ) (sim : ℕ)
    (h1 : 1 ≤ target_duration) :
    (∀ d, d < min target_duration numDays →
      (execute_strategy_1 numDays total_usd target_duration prices sim).usd d
        = total_usd / target_duration)
    ∧ (execute_strategy_1 numDays total_usd target_duration prices sim).end_day
        = min target_duration numDays
    ∧ (target_duration ≤ numDays →
      |(∑ d ∈ Finset.range
            (execute_strategy_1 numDays total_usd target_duration prices sim).end_day,
          (execute_strategy_1 numDays total_usd target_duration prices sim).usd d)
        - total_usd| ≤ 1 / 100) := by
  refine ⟨fun d hd => ?_, rfl, fun hD => ?_⟩
  · show (if d < min target_duration numDays then total_usd / target_duration else 0) = _
    rw [if_pos hd]
  · obtain ⟨hS, _⟩ := strat1_row_spec numDays total_usd target_duration (prices sim) h1 hD
    show |(∑ d ∈ Finset.range
          (execute_strategy_1_row numDays total_usd target_duration (prices sim)).end_day,
        (execute_strategy_1_row numDays total_usd target_duration (prices sim)).usd d)
      - total_usd| ≤ 1 / 100
    rw [hS]
    simp

/-- Witness for C8 (amended) at `target = 2`, three days, budget 100. -/
theorem fixed_schedule_spec_witness :
    ((1 : ℕ) ≤ 2 ∧ (2 : ℕ) ≤ 3)
    ∧ (execute_strategy_1 3 100 2 (fun _ _ => 100) 0).end_day = min 2 3
    ∧ |(∑ d ∈ Finset.range (execute_strategy_1 3 100 2 (fun _ _ => 100) 0).end_day,
        (execute_strategy_1 3 100 2 (fun _ _ => 100) 0).usd d) - 100| ≤ 1 / 100 :=
  ⟨⟨by norm_num, by norm_num⟩,
    (fixed_schedule_spec 3 100 2 (fun _ _ => 100) 0 (by norm_num)).2.1,
    (fixed_schedule_spec 3 100 2 (fun _ _ => 100) 0 (by norm_num)).2.2 (by norm_num)⟩

/-- Counterexample to C3 as stated: the strategy engine does not reject the
invalid configuration `min_duration = 3 > target_duration = 2` — it executes
a trade of 50 on day 0 — and the path generator accepts the non-positive
initial price −1, producing a batch whose day-0 prices equal −1. -/
theorem no_validation_counterexample :
    (execute_strategy_2 ⟨100, 2, 3, 4⟩ 1 4 none (fun _ _ => 100) 0).usd 0 = 50
    ∧ (simulate_gbm_paths (-1) 5 0 20 3 (some 42) 0).1 0 0 = -1 := by
  constructor
  · show (strat2Go ⟨100, 2, 3, 4⟩ (resolveBench 1 4 (fun _ _ => 100) none)
        (fun _ => (100 : ℚ)) (min 4 4) 0 100).1.getD 0 0 = 50
    rw [strat2Go_getD_eq ⟨100, 2, 3, 4⟩ (resolveBench 1 4 (fun _ _ => 100) none)
      (fun _ => (100 : ℚ)) 0 (min 4 4) 0 100 (by norm_num)]
    show (execDay ⟨100, 2, 3, 4⟩ (resolveBench 1 4 (fun _ _ => 100) none) 0 100 100).getD 0 = 50
    have hstep : execDay ⟨100, 2, 3, 4⟩ (resolveBench 1 4 (fun _ _ => 100) none) 0 100 100
        = some 50 := by
      unfold execDay tradeAmount
      norm_num
    rw [hstep]
    rfl
  · rfl

/-- C3, amended: Neither the path generator nor the strategy engine
validates its configuration: an out-of-order duration configuration
(`target_duration < min_duration`) is not rejected — the engine executes it
to completion, deploying the budget as usual — and the generator accepts any
initial price, every row's day-0 price being that S0.  Rejection of such
inputs exists only as widget constraints in the excluded dashboard layer. -/
theorem no_validation_executes (cfg : StratConfig) (numSims numDays : ℕ)
    (prices : ℕ → ℕ → ℚ) (benchOpt : Option (List ℚ)) (sim : ℕ)
    (hinvalid : cfg.target_duration < cfg.min_duration)
    (hmax1 : 1 ≤ cfg.max_duration) (hmaxD : cfg.max_duration ≤ numDays)
    (hb : 0 ≤ cfg.total_usd) :
    |(∑ d ∈ Finset.range
          (execute_strategy_2 cfg numSims numDays benchOpt prices sim).end_day,
        (execute_strategy_2 cfg numSims numDays benchOpt prices sim).usd d)
      - cfg.total_usd| ≤ 1 / 100
    ∧ ∀ (S0 : ℝ) (nd : ℕ) (dr vol : ℝ) (ns : ℕ) (seed : Option ℤ)
        (st : RngState) (s : ℕ),
        (simulate_gbm_paths S0 nd dr vol ns seed st).1 s 0 = S0 := by
  constructor
  · exact (strat2_row_spec cfg numDays (resolveBench numSims numDays prices benchOpt)
      (prices sim) hmax1 hmaxD hb).1
  · intro S0 nd dr vol ns seed st s
    rfl

/-- Witness for C3 (amended) at the invalid configuration
`total = 100, target = 2, min = 3, max = 4` on a 4-day constant batch. -/
theorem no_validation_executes_witness :
    ((2 : ℕ) < 3 ∧ (1 : ℕ) ≤ 4 ∧ (4 : ℕ) ≤ 4 ∧ (0 : ℚ) ≤ 100)
    ∧ |(∑ d ∈ Finset.range
          (execute_strategy_2 ⟨100, 2, 3, 4⟩ 1 4 none (fun _ _ => 100) 0).end_day,
        (execute_strategy_2 ⟨100, 2, 3, 4⟩ 1 4 none (fun _ _ => 100) 0).usd d)
      - 100| ≤ 1 / 100 :=
  ⟨⟨by norm_num, by norm_num, le_refl _, by norm_num⟩,
    (no_validation_executes ⟨100, 2, 3, 4⟩ 1 4 (fun _ _ => 100) none 0 (by norm_num)
      (by norm_num) (le_refl _) (by norm_num)).1⟩

/-- C5: proved. For every simulation, the evaluation benchmark is the mean of
that simulation's own prices over days `0..end_day−1`, multiplied by
`1 − discount_bps/10000` exactly for the strategy named `'strategy_3'`
(strategies 1 and 2 are evaluated undiscounted regardless of the global
discount setting), and the performance score is
`−((VWAP − benchmark) / benchmark) · 10000`, so a VWAP below a positive
benchmark yields a positive score. -/
theorem evaluation_benchmark_and_score (strategy_name : String)
    (row : ExecutionRow) (price : ℕ → ℚ) (benchmark_discount_bps : ℚ)
    (hbps : 0 ≤ benchmark_discount_bps) :
    ((strategyMetricsRow strategy_name row price benchmark_discount_bps).2.1
      = if strategy_name = "strategy_3" then
          ((∑ d ∈ Finset.range row.end_day, price d) / (row.end_day : ℚ))
            * (1 - benchmark_discount_bps / 10000)
        else (∑ d ∈ Finset.range row.end_day, price d) / (row.end_day : ℚ))
    ∧ (strategyMetricsRow strategy_name row price benchmark_discount_bps).2.2
      = -(((strategyMetricsRow strategy_name row price benchmark_discount_bps).1
          - (strategyMetricsRow strategy_name row price benchmark_discount_bps).2.1)
          / (strategyMetricsRow strategy_name row price benchmark_discount_bps).2.1)
          * 10000
    ∧ (0 < (strategyMetricsRow strategy_name row price benchmark_discount_bps).2.1 →
        (strategyMetricsRow strategy_name row price benchmark_discount_bps).1
          < (strategyMetricsRow strategy_name row price benchmark_discount_bps).2.1 →
        0 < (strategyMetricsRow strategy_name row price benchmark_discount_bps).2.2) := by
  have hv : (strategyMetricsRow strategy_name row price benchmark_discount_bps).1
      = calculate_vwap row.usd row.shares row.end_day := rfl
  have hbch : (strategyMetricsRow strategy_name row price benchmark_discount_bps).2.1
      = calculate_benchmark_price price row.end_day
          (evalDiscountFor strategy_name benchmark_discount_bps) := rfl
  have hp : (strategyMetricsRow strategy_name row price benchmark_discount_bps).2.2
      = calculate_execution_performance_bps
          (calculate_vwap row.usd row.shares row.end_day)
          (calculate_benchmark_price price row.end_day
            (evalDiscountFor strategy_name benchmark_discount_bps)) := rfl
  refine ⟨?_, ?_, ?_⟩
  · rw [hbch]
    unfold calculate_benchmark_price evalDiscountFor
    by_cases hname : strategy_name = "strategy_3"
    · rw [if_pos hname, if_pos hname]
      rcases lt_or_eq_of_le hbps with hpos | hzero
      · rw [if_pos hpos]
      · rw [if_neg (by rw [← hzero]; exact lt_irrefl 0), ← hzero]
        norm_num
    · rw [if_neg hname, if_neg hname, if_neg (lt_irrefl 0)]
  · rw [hp, hv, hbch]
    unfold calculate_execution_performance_bps
    ring
  · intro hbench hlt
    rw [hv, hbch] at hlt
    rw [hbch] at hbench
    rw [hp]
    unfold calculate_execution_performance_bps
    have hneg : (calculate_vwap row.usd row.shares row.end_day
        - calculate_benchmark_price price row.end_day
            (evalDiscountFor strategy_name benchmark_discount_bps))
        / calculate_benchmark_price price row.end_day
            (evalDiscountFor strategy_name benchmark_discount_bps) < 0 :=
      div_neg_of_neg_of_pos (by linarith) hbench
    nlinarith

/-- Witness for C5 at the discounted strategy with a two-day row of constant
price 100 and 100 bps discount. -/
theorem evaluation_benchmark_and_score_witness :
    (0 : ℚ) ≤ 100
    ∧ (strategyMetricsRow "strategy_3" ⟨fun _ => 98, fun _ => 1, 2⟩ (fun _ => 100) 100).2.1
      = if "strategy_3" = "strategy_3" then
          ((∑ d ∈ Finset.range (⟨fun _ => 98, fun _ => 1, 2⟩ : ExecutionRow).end_day,
              (100 : ℚ)) / ((⟨fun _ => 98, fun _ => 1, 2⟩ : ExecutionRow).end_day : ℚ))
            * (1 - 100 / 10000)
        else ((∑ d ∈ Finset.range (⟨fun _ => 98, fun _ => 1, 2⟩ : ExecutionRow).end_day,
              (100 : ℚ)) / ((⟨fun _ => 98, fun _ => 1, 2⟩ : ExecutionRow).end_day : ℚ)) :=
  ⟨by norm_num,
    (evaluation_benchmark_and_score "strategy_3" ⟨fun _ => 98, fun _ => 1, 2⟩
      (fun _ => 100) 100 (by norm_num)).1⟩

/-- C6: proved. Degenerate divisions take defined fallbacks rather than raising:
VWAP is the usd sum over `0..end_day−1` divided by the shares sum whenever
the latter is positive and 0 when no shares were acquired, and the bps
performance computation at a zero benchmark yields the junk value of total
division (numpy produces a defined IEEE value with a warning, not an
exception). -/
theorem degenerate_division_fallbacks (usd shares : ℕ → ℚ) (end_day : ℕ) :
    (0 < (∑ d ∈ Finset.range end_day, shares d) →
      calculate_vwap usd shares end_day
        = (∑ d ∈ Finset.range end_day, usd d) / (∑ d ∈ Finset.range end_day, shares d))
    ∧ ((∑ d ∈ Finset.range end_day, shares d) = 0 →
      calculate_vwap usd shares end_day = 0)
    ∧ (∀ v : ℚ, calculate_execution_performance_bps v 0 = 0) := by
  refine ⟨fun h => ?_, fun h => ?_, fun v => ?_⟩
  · unfold calculate_vwap
    rw [if_pos h]
  · unfold calculate_vwap
    rw [if_neg (by rw [h]; exact lt_irrefl 0)]
  · unfold calculate_execution_performance_bps
    rw [div_zero, mul_comm, mul_zero, neg_zero]

/-- Witness for C6: two days of 100 usd for one share each (VWAP 100), the
no-shares fallback, and the zero-benchmark score. -/
theorem degenerate_division_fallbacks_witness :
    calculate_vwap (fun _ => 100) (fun _ => 1) 2
      = (∑ d ∈ Finset.range 2, (100 : ℚ)) / (∑ d ∈ Finset.range 2, (1 : ℚ))
    ∧ calculate_vwap (fun _ => 100) (fun _ => 0) 2 = 0
    ∧ calculate_execution_performance_bps 5 0 = 0 :=
  ⟨(degenerate_division_fallbacks (fun _ => 100) (fun _ => 1) 2).1 (by norm_num)
  , (degenerate_division_fallbacks (fun _ => 100) (fun _ => 0) 2).2.1 (by simp)
  , (degenerate_division_fallbacks (fun _ => 100) (fun _ => 0) 2).2.2 5⟩

theorem foldl_min_mem (t : List ℚ) : ∀ a : ℚ, t.foldl min a ∈ a :: t := by
  induction t with
  | nil => intro a; simp
  | cons b t ih =>
    intro a
    simp only [List.foldl_cons]
    have h := ih (min a b)
    rw [List.mem_cons] at h
    rcases h with h | h
    · rcases min_choice a b with hm | hm
      · rw [h, hm]; exact List.mem_cons_self _ _
      · rw [h, hm]; exact List.mem_cons_of_mem _ (List.mem_cons_self _ _)
    · exact List.mem_cons_of_mem _ (List.mem_cons_of_mem _ h)

theorem foldl_min_le (t : List ℚ) :
    ∀ a : ℚ, t.foldl min a ≤ a ∧ ∀ y ∈ t, t.foldl min a ≤ y := by
  induction t with
  | nil => intro a; simp
  | cons b t ih =>
    intro a
    obtain ⟨h1, h2⟩ := ih (min a b)
    refine ⟨le_trans h1 (min_le_left a b), ?_⟩
    intro y hy
    rw [List.mem_cons] at hy
    rcases hy with rfl | hy
    · exact le_trans h1 (min_le_right a _)
    · exact h2 y hy

theorem foldl_max_mem (t : List ℚ) : ∀ a : ℚ, t.foldl max a ∈ a :: t := by
  induction t with
  | nil => intro a; simp
  | cons b t ih =>
    intro a
    simp only [List.foldl_cons]
    have h := ih (max a b)
    rw [List.mem_cons] at h
    rcases h with h | h
    · rcases max_choice a b with hm | hm
      · rw [h, hm]; exact List.mem_cons_self _ _
      · rw [h, hm]; exact List.mem_cons_of_mem _ (List.mem_cons_self _ _)
    · exact List.mem_cons_of_mem _ (List.mem_cons_of_mem _ h)

theorem foldl_max_ge (t : List ℚ) :
    ∀ a : ℚ, a ≤ t.foldl max a ∧ ∀ y ∈ t, y ≤ t.foldl max a := by
  induction t with
  | nil => intro a; simp
  | cons b t ih =>
    intro a
    obtain ⟨h1, h2⟩ := ih (max a b)
    refine ⟨le_trans (le_max_left a b) h1, ?_⟩
    intro y hy
    rw [List.mem_cons] at hy
    rcases hy with rfl | hy
    · exact le_trans (le_max_right a _) h1
    · exact h2 y hy

/-- C10: proved. For every non-empty performance-score vector, the batch
statistics are the mean, the population standard deviation (square root of
the mean squared deviation), the standard error `std / √N`, the `np.median`
and 25th/75th `np.percentile` of the data, and a least and a greatest
element of the vector; on `[100, 200, 300, 400, 500]` they evaluate to
mean 300, median 300, p25 200, p75 400, min 100, max 500. -/
theorem performance_statistics_spec (xs : List ℚ) (h : xs ≠ []) :
    (calculate_performance_statistics xs).mean = xs.sum / xs.length
    ∧ (calculate_performance_statistics xs).std
        = Real.sqrt ((popVariance xs : ℚ) : ℝ)
    ∧ (calculate_performance_statistics xs).std_error
        = (calculate_performance_statistics xs).std / Real.sqrt (xs.length : ℝ)
    ∧ (calculate_performance_statistics xs).median = npMedian xs
    ∧ (calculate_performance_statistics xs).p25 = npPercentile xs 25
    ∧ (calculate_performance_statistics xs).p75 = npPercentile xs 75
    ∧ (calculate_performance_statistics xs).min ∈ xs
    ∧ (∀ y ∈ xs, (calculate_performance_statistics xs).min ≤ y)
    ∧ (calculate_performance_statistics xs).max ∈ xs
    ∧ (∀ y ∈ xs, y ≤ (calculate_performance_statistics xs).max)
    ∧ ((calculate_performance_statistics [100, 200, 300, 400, 500]).mean = 300
      ∧ (calculate_performance_statistics [100, 200, 300, 400, 500]).median = 300
      ∧ (calculate_performance_statistics [100, 200, 300, 400, 500]).p25 = 200
      ∧ (calculate_performance_statistics [100, 200, 300, 400, 500]).p75 = 400
      ∧ (calculate_performance_statistics [100, 200, 300, 400, 500]).min = 100
      ∧ (calculate_performance_statistics [100, 200, 300, 400, 500]).max = 500) := by
  obtain ⟨a, t, rfl⟩ : ∃ a t, xs = a :: t := by
    cases xs with
    | nil => exact absurd rfl h
    | cons a t => exact ⟨a, t, rfl⟩
  refine ⟨rfl, rfl, rfl, rfl, rfl, rfl, ?_, ?_, ?_, ?_, ?_, ?_, ?_, ?_, ?_, ?_⟩
  · exact foldl_min_mem t a
  · intro y hy
    rw [List.mem_cons] at hy
    rcases hy with hEq | hy
    · rw [hEq]; exact (foldl_min_le t a).1
    · exact (foldl_min_le t a).2 y hy
  · exact foldl_max_mem t a
  · intro y hy
    rw [List.mem_cons] at hy
    rcases hy with hEq | hy
    · rw [hEq]; exact (foldl_max_ge t a).1
    · exact (foldl_max_ge t a).2 y hy
  · show ([(100 : ℚ), 200, 300, 400, 500].sum / ([(100 : ℚ), 200, 300, 400, 500].length : ℚ)) = 300
    norm_num
  · show npMedian [(100 : ℚ), 200, 300, 400, 500] = 300
    norm_num [npMedian, List.insertionSort, List.orderedInsert]
  · show npPercentile [(100 : ℚ), 200, 300, 400, 500] 25 = 200
    norm_num [npPercentile, List.insertionSort, List.orderedInsert]
  · show npPercentile [(100 : ℚ), 200, 300, 400, 500] 75 = 400
    norm_num [npPercentile, List.insertionSort, List.orderedInsert]
    rfl
  · show npMin [(100 : ℚ), 200, 300, 400, 500] = 100
    norm_num [npMin, min_def]
  · show npMax [(100 : ℚ), 200, 300, 400, 500] = 500
    norm_num [npMax, max_def]

/-- Witness for C10 at the spec's own example vector. -/
theorem performance_statistics_spec_witness :
    ([(100 : ℚ), 200, 300, 400, 500] ≠ [])
    ∧ (calculate_performance_statistics [100, 200, 300, 400, 500]).mean
        = [(100 : ℚ), 200, 300, 400, 500].sum / ([(100 : ℚ), 200, 300, 400, 500].length : ℚ)
    ∧ (calculate_performance_statistics [100, 200, 300, 400, 500]).min
        ∈ [(100 : ℚ), 200, 300, 400, 500] :=
  ⟨by simp,
    (performance_statistics_spec [100, 200, 300, 400, 500] (by simp)).1,
    (performance_statistics_spec [100, 200, 300, 400, 500] (by simp)).2.2.2.2.2.2.1⟩

/-- Witness for C9 at the same concrete configuration as the C1 witness. -/
theorem adaptive_end_day_bounds_witness :
    ((1 : ℕ) ≤ 1 ∧ (1 : ℕ) ≤ 2 ∧ (2 : ℕ) ≤ 3 ∧ (3 : ℕ) ≤ 3 ∧ (0 : ℚ) < 100)
    ∧ 1 ≤ (execute_strategy_2 ⟨100, 2, 1, 3⟩ 1 3 none (fun _ _ => 100) 0).end_day
    ∧ (execute_strategy_2 ⟨100, 2, 1, 3⟩ 1 3 none (fun _ _ => 100) 0).end_day ≤ 3 :=
  ⟨⟨le_refl _, by norm_num, by norm_num, le_refl _, by norm_num⟩,
    (adaptive_end_day_bounds ⟨100, 2, 1, 3⟩ 1 3 (fun _ _ => 100)
      (le_refl _) (by norm_num) (by norm_num) (le_refl _) (by norm_num)).1 none 0⟩

end Buyback
